import Mathlib

set_option maxHeartbeats 1000000
set_option maxRecDepth 100000

/-
  Verification development for the directory_scan repository.

  The definitions below are a shallow embedding of the C++ sources:
    - bounded_file_queue.h : BoundedFileQueue (push / pop / setFinished)
    - dirscan.cpp          : sanitizeLine, truncateAndHighlightMatch,
                             searchInFile, wildcardToRegex, the producer
                             lambda and searchInDirectory
  Text (std::string bytes) is modelled as List Char; machine counters as Nat.
  Blocking condition-variable waits are modelled by a step semantics in which
  an operation whose wait predicate is false leaves the state unchanged
  (the thread stays blocked, no state transition happens on its behalf).
-/

namespace DirScan

/-- State of the bounded queue from `bounded_file_queue.h`: the pending
items (`std::queue<std::filesystem::path> queue_`, head first), the capacity
(`maxSize_`) and the `finished_` flag. -/
structure BoundedFileQueue where
  queue : List (List Char)
  maxSize : Nat
  finished : Bool
deriving DecidableEq, Repr

/-- Result of one `pop` call: an item, end-of-stream (`pop` returned false),
or the caller is still blocked inside the condition-variable wait. -/
inductive PopResult where
  | item (p : List Char)
  | endOfStream
  | blocked
deriving DecidableEq, Repr

/-- The freshly constructed queue (`BoundedFileQueue(maxSize)`). -/
def BoundedFileQueue.init (maxSize : Nat) : BoundedFileQueue :=
  { queue := [], maxSize := maxSize, finished := false }

/-- `push`: the caller waits until `queue_.size() < maxSize_ || finished_`;
once woken with the predicate true, a set `finished_` discards the item,
otherwise the item is appended at the tail.  While the wait predicate is
false the state is unchanged (caller blocked). -/
def BoundedFileQueue.push (s : BoundedFileQueue) (p : List Char) : BoundedFileQueue :=
  if s.queue.length < s.maxSize ∨ s.finished = true then
    if s.finished = true then s
    else { s with queue := s.queue ++ [p] }
  else s

/-- `pop`: the caller waits until `!queue_.empty() || finished_`; once woken,
an empty queue means end of stream (return false), otherwise the head is
removed and returned.  While the wait predicate is false the state is
unchanged (caller blocked). -/
def BoundedFileQueue.pop (s : BoundedFileQueue) : PopResult × BoundedFileQueue :=
  if s.queue ≠ [] ∨ s.finished = true then
    match s.queue with
    | [] => (PopResult.endOfStream, s)
    | p :: rest => (PopResult.item p, { s with queue := rest })
  else (PopResult.blocked, s)

/-- `setFinished`: sets the monotonic `finished_` flag. -/
def BoundedFileQueue.setFinished (s : BoundedFileQueue) : BoundedFileQueue :=
  { s with finished := true }

/-- One operation applied to the queue by some thread. -/
inductive QOp where
  | push (p : List Char)
  | pop
  | markFinished
deriving DecidableEq, Repr

/-- State transition of the queue under one operation. -/
def qstep (s : BoundedFileQueue) : QOp → BoundedFileQueue
  | QOp.push p => s.push p
  | QOp.pop => (s.pop).2
  | QOp.markFinished => s.setFinished

/-- Iterating `pop` on the state only. -/
def popIter : Nat → BoundedFileQueue → BoundedFileQueue
  | 0, s => s
  | n + 1, s => popIter n (s.pop).2

/-- The result of the pop performed after `n` earlier pops. -/
def popAfter (n : Nat) (s : BoundedFileQueue) : PopResult × BoundedFileQueue :=
  (popIter n s).pop


/-- From `sanitizeLine` in dirscan.cpp: a byte is kept as-is when it is
printable ASCII (32 ≤ c < 127, DEL excluded) or a tab. -/
def isPlainByte (c : Char) : Bool :=
  (32 ≤ c.toNat && c.toNat < 127) || c = Char.ofNat 9

/-- The two hex digits printed by `oss << std::hex << std::setw(2) <<
std::setfill('0') << (int)c` for a byte value (always exactly two digits for
values 0..255; `Nat.digitChar` gives the same lowercase digits as the C++
stream). -/
def hexByte (n : Nat) : List Char :=
  [Nat.digitChar (n / 16), Nat.digitChar (n % 16)]

/-- `sanitizeLine` from dirscan.cpp: the `ostringstream` accumulation over the
bytes of the line, keeping printable/tab bytes and escaping every other byte
as backslash-x plus two hex digits. -/
def sanitizeLine (line : List Char) : List Char :=
  line.foldl
    (fun acc c =>
      if isPlainByte c then acc ++ [c]
      else acc ++ (Char.ofNat 92 :: 'x' :: hexByte c.toNat))
    []

/-- Claim-side description of the per-byte behaviour of `sanitizeLine`:
each printable-or-tab byte maps to itself, every other byte to the
four-character escape sequence. -/
def escSpec (c : Char) : List Char :=
  if isPlainByte c then [c]
  else Char.ofNat 92 :: 'x' :: hexByte c.toNat


/-- The ANSI red highlight marker inserted before the match
("\033[31m" in dirscan.cpp). -/
def redCode : List Char := Char.ofNat 27 :: "[31m".toList

/-- The ANSI reset marker inserted after the match ("\033[0m"). -/
def resetCode : List Char := Char.ofNat 27 :: "[0m".toList

/-- `std::string::find`: index of the first occurrence of `q` in `l`
(`none` models `npos`; an empty needle is found at index 0). -/
def findSub : List Char → List Char → Option Nat
  | [], q => if q.isPrefixOf ([] : List Char) then some 0 else none
  | c :: l2, q =>
    if q.isPrefixOf (c :: l2) then some 0
    else (findSub l2 q).map fun n => n + 1

/-- `truncateAndHighlightMatch` from dirscan.cpp: locate the query literally,
cut a window of `maxContext / 2` characters on each side of the match, insert
the reset marker after and the red marker before the match, and add the
"... " / " ..." truncation indicators when context was cut.  When the query
does not occur literally the line is returned unhighlighted, cut to
`maxContext` characters with the "...(truncated)" suffix when overlong. -/
def truncateAndHighlightMatch (line query : List Char) (maxContext : Nat) : List Char :=
  match findSub line query with
  | none =>
      if maxContext < line.length then line.take maxContext ++ "...(truncated)".toList
      else line
  | some pos =>
      let contextRadius := maxContext / 2
      let start := if contextRadius < pos then pos - contextRadius else 0
      let stop := min (pos + query.length + contextRadius) line.length
      let snippet := (line.drop start).take (stop - start)
      let snippetMatchPos := pos - start
      let s1 := snippet.take (snippetMatchPos + query.length) ++ resetCode
                  ++ snippet.drop (snippetMatchPos + query.length)
      let s2 := s1.take snippetMatchPos ++ redCode ++ s1.drop snippetMatchPos
      let s3 := if 0 < start then "... ".toList ++ s2 else s2
      if stop < line.length then s3 ++ " ...".toList else s3


/-- Shared status block `StatusData` from dirscan.cpp (`g_status`). -/
structure StatusData where
  filesScanned : Nat
  currentFile : List Char
  fileHits : Nat
  totalHits : Nat
  lastError : List Char
deriving DecidableEq, Repr

/-- A candidate regular file: its path, whether `std::ifstream` can open it,
and its lines (`std::getline` units, separators stripped). -/
structure FileEntry where
  path : List Char
  canOpen : Bool
  lines : List (List Char)
deriving DecidableEq, Repr

/-- The per-line match test of `searchInFile`: `std::regex_search` in regex
mode (the regex engine is the opaque capability `regexSearch`), literal
`std::string::find` containment otherwise. -/
def lineFound (use_regex : Bool) (regexSearch : List Char → Bool)
    (query line : List Char) : Bool :=
  if use_regex then regexSearch line else (findSub line query).isSome

/-- The match-collection loop of `searchInFile`: line numbers count from 1,
and each matching line is recorded with its sanitized, truncated, highlighted
snippet (window 180). -/
def collectMatches (query : List Char) (use_regex : Bool)
    (regexSearch : List Char → Bool) :
    List (List Char) → Nat → List (Nat × List Char)
  | [], _ => []
  | l :: ls, n =>
    (if lineFound use_regex regexSearch query l then
      [(n, sanitizeLine (truncateAndHighlightMatch l query 180))]
     else [])
    ++ collectMatches query use_regex regexSearch ls (n + 1)

/-- Decimal rendering of a counter, as the C++ stream insertion prints it. -/
def natChars (n : Nat) : List Char := (Nat.repr n).toList

/-- The header line of a result block:
`Matches in file: <path> (<N> hits)`. -/
def headerLine (path : List Char) (n : Nat) : List Char :=
  "Matches in file: ".toList ++ path ++ " (".toList ++ natChars n ++ " hits)".toList

/-- One match line of a result block: `    Line <k>: <snippet>`. -/
def matchLine (m : Nat × List Char) : List Char :=
  "    Line ".toList ++ natChars m.1 ++ ": ".toList ++ m.2

/-- Result of one `searchInFile` call: whether the `ifstream` open succeeded,
the status block after the call, the lines appended to `search_results.txt`,
and the increment applied to the `g_filesProcessed` atomic counter. -/
structure FileSearchOut where
  opened : Bool
  status : StatusData
  output : List (List Char)
  filesProcessedDelta : Nat
deriving DecidableEq, Repr

/-- `searchInFile` from dirscan.cpp.  The control flow of the source is kept:
an unopenable file records `lastError` and returns at once (before any
counter is touched); in regex mode a query that fails to compile
(`regexOk = false`, the outcome of the `std::regex` constructor) records
`lastError` and returns at once; otherwise the lines are scanned, the hit
counters are raised once per matching line, `filesScanned` is raised once,
and a non-empty match list is flushed as one block. -/
def searchInFile (filePath : FileEntry) (query : List Char) (use_regex : Bool)
    (regexOk : Bool) (regexSearch : List Char → Bool)
    (st : StatusData) : FileSearchOut :=
  if filePath.canOpen = false then
    { opened := false
      status := { st with lastError := "Could not open: ".toList ++ filePath.path }
      output := []
      filesProcessedDelta := 0 }
  else if use_regex && !regexOk then
    { opened := true
      status := { st with lastError := "Invalid regex: ".toList ++ query }
      output := []
      filesProcessedDelta := 0 }
  else
    let ms := collectMatches query use_regex regexSearch filePath.lines 1
    { opened := true
      status := { st with
        fileHits := st.fileHits + ms.length
        totalHits := st.totalHits + ms.length
        filesScanned := st.filesScanned + 1 }
      output :=
        if ms.isEmpty then []
        else headerLine filePath.path ms.length :: ms.map matchLine ++ [[]]
      filesProcessedDelta := 1 }

/-- Token alphabet of the regexes produced by `wildcardToRegex`:
`.*`, `.`, and (possibly escaped) literal characters. -/
inductive Tok where
  | star
  | anyOne
  | lit (c : Char)
deriving DecidableEq, Repr

/-- The characters escaped by the `switch` in `wildcardToRegex`
(braces written numerically). -/
def isSpecialChar (c : Char) : Bool :=
  c = '.' || c = Char.ofNat 92 || c = '+' || c = '^' || c = '$' ||
  c = '(' || c = ')' || c = Char.ofNat 123 || c = Char.ofNat 125 ||
  c = '[' || c = ']' || c = '|' || c = '/'

/-- Per-character emission of `wildcardToRegex`. -/
def encodeWildcardChar (c : Char) : List Char :=
  if c = '*' then ['.', '*']
  else if c = '?' then ['.']
  else if isSpecialChar c then [Char.ofNat 92, c]
  else [c]

/-- `wildcardToRegex` from dirscan.cpp: anchor with `^`, translate each
wildcard character, anchor with `$`. -/
def wildcardToRegex (wildcard : List Char) : List Char :=
  '^' :: wildcard.flatMap encodeWildcardChar ++ ['$']

/-- Parser for the regex fragment emitted by `wildcardToRegex` (body after
the leading `^`): the terminating `$`, escaped literals, `.*`, `.`, and plain
literal characters.  Anything the fragment cannot contain --- a stray
quantifier or a non-final anchor --- fails, as the `std::regex` constructor
would reject or reinterpret it. -/
def parseRegexTokens : List Char → Option (List Tok)
  | [] => none
  | c :: rest =>
    if c = '$' then (if rest = [] then some [] else none)
    else if c = Char.ofNat 92 then
      match rest with
      | [] => none
      | d :: rest2 => (parseRegexTokens rest2).map fun ts => Tok.lit d :: ts
    else if c = '.' then
      match rest with
      | [] => none
      | d :: rest2 =>
        if d = '*' then (parseRegexTokens rest2).map fun ts => Tok.star :: ts
        else (parseRegexTokens (d :: rest2)).map fun ts => Tok.anyOne :: ts
    else if c = '*' then none
    else (parseRegexTokens rest).map fun ts => Tok.lit c :: ts

/-- Compilation of a full anchored pattern (`std::regex` construction of a
`wildcardToRegex` result): strip the leading `^` and parse the body. -/
def compileAnchored : List Char → Option (List Tok)
  | '^' :: rest => parseRegexTokens rest
  | _ => none

/-- ECMAScript line terminators relevant to byte strings: `\n` and `\r`
(the `.` atom of `std::regex` does not match them). -/
def isLineTerm (c : Char) : Bool :=
  c = Char.ofNat 10 || c = Char.ofNat 13

/-- Case-insensitive character comparison (`std::regex::icase` over ASCII). -/
def eqI (a b : Char) : Bool := a.toLower = b.toLower

/-- Full-match semantics of the compiled token list, as `std::regex_match`
with `icase` evaluates it: `.*` consumes any sequence of
non-line-terminator characters, `.` exactly one such character, and a
literal compares case-insensitively. -/
def regexFullMatchI : List Tok → List Char → Bool
  | [], s => s.isEmpty
  | Tok.star :: ts, s =>
    regexFullMatchI ts s ||
      (match s with
       | [] => false
       | c :: s2 => !isLineTerm c && regexFullMatchI (Tok.star :: ts) s2)
  | Tok.anyOne :: ts, s =>
    (match s with
     | [] => false
     | c :: s2 => !isLineTerm c && regexFullMatchI ts s2)
  | Tok.lit c :: ts, s =>
    (match s with
     | [] => false
     | d :: s2 => eqI c d && regexFullMatchI ts s2)
termination_by ts s => ts.length + s.length

/-- `matchesWildcard` from dirscan.h: `std::regex_match(filename, regex)`. -/
def matchesWildcard (filename : List Char) (tks : List Tok) : Bool :=
  regexFullMatchI tks filename

/-- The whole filename-filter pipeline of `searchInDirectory`: translate the
wildcard, compile it (with `icase`), and full-match the filename. -/
def matchesWildcardCompiled (filename : List Char) (pat : List Char) : Bool :=
  match compileAnchored (wildcardToRegex pat) with
  | some tks => matchesWildcard filename tks
  | none => false

/-- Claim-side wildcard semantics, following the claim's words: `*` matches
zero or more characters, `?` exactly one character, and any other pattern
character matches itself (case-insensitively, as the filter is compiled with
`icase`). -/
def wildMatchSpec : List Char → List Char → Bool
  | [], s => s.isEmpty
  | p :: ps, s =>
    if p = '*' then
      wildMatchSpec ps s ||
        (match s with
         | [] => false
         | _ :: s2 => wildMatchSpec (p :: ps) s2)
    else
      match s with
      | [] => false
      | c :: s2 => (if p = '?' then true else eqI p c) && wildMatchSpec ps s2
termination_by ps s => ps.length + s.length

/-- The token a single wildcard character compiles to. -/
def tokOfWildcardChar (c : Char) : Tok :=
  if c = '*' then Tok.star
  else if c = '?' then Tok.anyOne
  else Tok.lit c

/-- One directory entry yielded by `recursive_directory_iterator`: its
filename, full path, regular-file flag, and the file data used if it is
enqueued. -/
structure DirEntry where
  name : List Char
  path : List Char
  isRegular : Bool
  canOpen : Bool
  lines : List (List Char)
deriving DecidableEq, Repr

/-- One step of the directory walk: an entry, or a per-entry exception
(the inner `catch` in the producer lambda). -/
inductive WalkItem where
  | entry (e : DirEntry)
  | entryError (pathStr what : List Char)
deriving DecidableEq, Repr

/-- An observable action of the producer thread. -/
inductive PAct where
  | pushTask (e : DirEntry)
  | recordError (msg : List Char)
  | markFinished
deriving DecidableEq, Repr

/-- The filter test the producer applies to one entry: regular files only,
and when a filename filter is configured the name must match it. -/
def entryPasses (filt : Option (List Tok)) (e : DirEntry) : Bool :=
  e.isRegular &&
    (match filt with
     | none => true
     | some tks => matchesWildcard e.name tks)

/-- Actions the producer performs for one walk step: push the entry if it
passes the filter; record `lastError` (with the source's literal "/n"
separator) on a per-entry exception. -/
def entryActions (filt : Option (List Tok)) : WalkItem → List PAct
  | WalkItem.entry e =>
      if entryPasses filt e then [PAct.pushTask e] else []
  | WalkItem.entryError p what =>
      [PAct.recordError ("Error reading an entry: ".toList ++ p ++ "/n".toList ++ what)]

/-- The full action trace of the producer lambda in `searchInDirectory`:
the per-entry actions over the walked prefix, the fatal traversal error (the
outer `catch`) if one interrupted the walk, and then --- unconditionally,
on every exit path --- `setFinished` on the queue. -/
def producerTrace (dir : List Char) (filt : Option (List Tok))
    (walk : List WalkItem) (fatal : Option (List Char)) : List PAct :=
  walk.flatMap (entryActions filt)
  ++ (match fatal with
      | none => []
      | some what =>
          [PAct.recordError ("Error scanning directory: ".toList ++ dir
            ++ "/n".toList ++ what)])
  ++ [PAct.markFinished]

/-- The tasks the producer pushes, in walk order. -/
def pushedTasks (filt : Option (List Tok)) (walk : List WalkItem) : List DirEntry :=
  walk.flatMap fun it =>
    match it with
    | WalkItem.entry e => if entryPasses filt e then [e] else []
    | WalkItem.entryError _ _ => []

/-- Effect of a producer action on the status block. -/
def applyPAct (st : StatusData) : PAct → StatusData
  | PAct.pushTask _ => st
  | PAct.recordError m => { st with lastError := m }
  | PAct.markFinished => st

/-- The status block as `searchInDirectory` initialises it. -/
def initStatus : StatusData :=
  { filesScanned := 0, currentFile := [], fileHits := 0, totalHits := 0
    lastError := "none".toList }

/-- The worker loop, linearised: claim a task (set `currentFile`, zero
`fileHits`), run `searchInFile`, and accumulate the paths of files that were
opened and the blocks written to the result file. -/
def runTasks (query : List Char) (use_regex regexOk : Bool)
    (regexSearch : List Char → Bool) :
    List DirEntry → StatusData → List (List Char) × List (List Char) × StatusData
  | [], st => ([], [], st)
  | t :: ts, st =>
    let st0 := { st with currentFile := t.path, fileHits := 0 }
    let r := searchInFile ⟨t.path, t.canOpen, t.lines⟩ query use_regex regexOk regexSearch st0
    let rest := runTasks query use_regex regexOk regexSearch ts r.status
    ((if r.opened then [t.path] else []) ++ rest.1, r.output ++ rest.2.1, rest.2.2)

/-- The compiled filename filter as `searchInDirectory` builds it. -/
def filterToks (filePattern : Option (List Char)) : Option (List Tok) :=
  match filePattern with
  | none => none
  | some p => compileAnchored (wildcardToRegex p)

/-- Outcome of one whole scan. -/
structure ScanResult where
  aborted : Bool
  openedPaths : List (List Char)
  resultLines : List (List Char)
  status : StatusData
deriving DecidableEq, Repr

/-- `searchInDirectory` from dirscan.cpp, linearised: abort if the result
file cannot be opened; abort if a configured filename filter fails to
compile; otherwise run the producer (folding its error records into the
status block) and then the workers over the pushed tasks. -/
def searchInDirectory (query : List Char) (directory : List Char)
    (use_regex regexOk : Bool) (regexSearch : List Char → Bool)
    (filePattern : Option (List Char)) (walk : List WalkItem)
    (fatal : Option (List Char)) (sinkOk : Bool) : ScanResult :=
  if sinkOk = false then
    { aborted := true, openedPaths := [], resultLines := [], status := initStatus }
  else
    match filePattern with
    | some p =>
      match compileAnchored (wildcardToRegex p) with
      | none =>
        { aborted := true, openedPaths := [], resultLines := [], status := initStatus }
      | some tks =>
        let st0 := (producerTrace directory (some tks) walk fatal).foldl applyPAct initStatus
        let r := runTasks query use_regex regexOk regexSearch (pushedTasks (some tks) walk) st0
        { aborted := false, openedPaths := r.1, resultLines := r.2.1, status := r.2.2 }
    | none =>
      let st0 := (producerTrace directory none walk fatal).foldl applyPAct initStatus
      let r := runTasks query use_regex regexOk regexSearch (pushedTasks none walk) st0
      { aborted := false, openedPaths := r.1, resultLines := r.2.1, status := r.2.2 }
theorem qstep_maxSize (s : BoundedFileQueue) (op : QOp) :
    (qstep s op).maxSize = s.maxSize := by
  cases op with
  | push p =>
      simp only [qstep, BoundedFileQueue.push]
      split
      · split
        · rfl
        · rfl
      · rfl
  | pop =>
      simp only [qstep, BoundedFileQueue.pop]
      split
      · cases h : s.queue with
        | nil => simp [h]
        | cons a t => simp [h]
      · rfl
  | markFinished => rfl

theorem qstep_length_le (s : BoundedFileQueue) (op : QOp)
    (h : s.queue.length ≤ s.maxSize) :
    (qstep s op).queue.length ≤ (qstep s op).maxSize := by
  cases op with
  | push p =>
      simp only [qstep, BoundedFileQueue.push]
      split
      · split
        · exact h
        · rename_i hwait hfin
          rcases hwait with hlt | hfin2
          · simpa using hlt
          · exact absurd hfin2 hfin
      · exact h
  | pop =>
      simp only [qstep, BoundedFileQueue.pop]
      split
      · cases hq : s.queue with
        | nil => simpa [hq] using h
        | cons a t =>
            simp only [hq]
            simp only [hq, List.length_cons] at h
            simpa using Nat.le_of_succ_le h
      · exact h
  | markFinished =>
      simp only [qstep, BoundedFileQueue.setFinished]
      exact h

theorem foldl_qstep_invariant (ops : List QOp) (s : BoundedFileQueue)
    (h : s.queue.length ≤ s.maxSize) :
    (ops.foldl qstep s).queue.length ≤ (ops.foldl qstep s).maxSize
    ∧ (ops.foldl qstep s).maxSize = s.maxSize := by
  induction ops generalizing s with
  | nil => exact ⟨h, rfl⟩
  | cons op ops ih =>
      simp only [List.foldl_cons]
      have h1 := qstep_length_le s op h
      have h2 := qstep_maxSize s op
      have := ih (qstep s op) h1
      exact ⟨this.1, this.2.trans h2⟩

/-- C3: for every sequence of push / pop / markFinished operations run from
the empty queue of capacity `C`, the queue length stays between 0 and `C`
after every prefix of the sequence; moreover a `push` against a queue that is
at capacity never inserts (the caller blocks or, if finished, the item is
discarded), and a `pop` from an empty queue never removes anything. -/
theorem queue_capacity_invariant (C : Nat) (ops : List QOp) (i : Nat) :
    ((ops.take i).foldl qstep (BoundedFileQueue.init C)).queue.length ≤ C
    ∧ (∀ s : BoundedFileQueue, s.queue.length = s.maxSize →
        ∀ p, (s.push p).queue = s.queue)
    ∧ (∀ s : BoundedFileQueue, s.queue = [] → ((s.pop).2).queue = []) := by
  refine ⟨?_, ?_, ?_⟩
  · have h0 : (BoundedFileQueue.init C).queue.length ≤ (BoundedFileQueue.init C).maxSize := by
      simp [BoundedFileQueue.init]
    have := foldl_qstep_invariant (ops.take i) (BoundedFileQueue.init C) h0
    have hmax : ((ops.take i).foldl qstep (BoundedFileQueue.init C)).maxSize = C := this.2
    calc ((ops.take i).foldl qstep (BoundedFileQueue.init C)).queue.length
        ≤ ((ops.take i).foldl qstep (BoundedFileQueue.init C)).maxSize := this.1
      _ = C := hmax
  · intro s hlen p
    simp only [BoundedFileQueue.push]
    split
    · split
      · rfl
      · rename_i hwait hfin
        rcases hwait with hlt | hfin2
        · omega
        · exact absurd hfin2 hfin
    · rfl
  · intro s hnil
    simp only [BoundedFileQueue.pop]
    split
    · simp [hnil]
    · exact hnil

theorem queue_capacity_invariant_witness :
    ((BoundedFileQueue.push { queue := [['a']], maxSize := 1, finished := false } ['b']).queue
      = [['a']])
    ∧ (((BoundedFileQueue.pop { queue := [], maxSize := 1, finished := false }).2).queue = []) := by
  refine ⟨?_, ?_⟩
  · exact (queue_capacity_invariant 1 [] 0).2.1
      { queue := [['a']], maxSize := 1, finished := false } (by decide) ['b']
  · exact (queue_capacity_invariant 1 [] 0).2.2
      { queue := [], maxSize := 1, finished := false } (by decide)

/-- C4: `pop` blocks while the queue is empty and `finished` is false; on a
non-empty queue it removes and returns the head (FIFO); on an empty finished
queue it returns end-of-stream, leaves the state unchanged, and this answer is
stable: the pop after any number of further pops on that queue still returns
end-of-stream. -/
theorem queue_pop_contract (s : BoundedFileQueue) :
    (s.queue = [] → s.finished = false → s.pop = (PopResult.blocked, s))
    ∧ (∀ p rest, s.queue = p :: rest →
        s.pop = (PopResult.item p, { s with queue := rest }))
    ∧ (s.queue = [] → s.finished = true →
        s.pop = (PopResult.endOfStream, s)
        ∧ ∀ n, popAfter n s = (PopResult.endOfStream, s)) := by
  refine ⟨?_, ?_, ?_⟩
  · intro hnil hfin
    simp [BoundedFileQueue.pop, hnil, hfin]
  · intro p rest hcons
    simp [BoundedFileQueue.pop, hcons]
  · intro hnil hfin
    have hpop : s.pop = (PopResult.endOfStream, s) := by
      simp [BoundedFileQueue.pop, hnil, hfin]
    refine ⟨hpop, ?_⟩
    intro n
    have hiter : ∀ m, popIter m s = s := by
      intro m
      induction m with
      | zero => rfl
      | succ k ih =>
          simp only [popIter, hpop]
          exact ih
    simp [popAfter, hiter n, hpop]

theorem queue_pop_contract_witness :
    (BoundedFileQueue.pop { queue := [], maxSize := 10, finished := true }
      = (PopResult.endOfStream, { queue := [], maxSize := 10, finished := true }))
    ∧ popAfter 3 { queue := [], maxSize := 10, finished := true }
      = (PopResult.endOfStream, { queue := [], maxSize := 10, finished := true })
    ∧ (BoundedFileQueue.pop { queue := [['a'], ['b']], maxSize := 10, finished := false }
      = (PopResult.item ['a'], { queue := [['b']], maxSize := 10, finished := false }))
    ∧ (BoundedFileQueue.pop { queue := [], maxSize := 10, finished := false }
      = (PopResult.blocked, { queue := [], maxSize := 10, finished := false })) := by
  refine ⟨?_, ?_, ?_, ?_⟩
  · exact ((queue_pop_contract { queue := [], maxSize := 10, finished := true }).2.2 rfl rfl).1
  · exact ((queue_pop_contract { queue := [], maxSize := 10, finished := true }).2.2 rfl rfl).2 3
  · exact (queue_pop_contract
      { queue := [['a'], ['b']], maxSize := 10, finished := false }).2.1 ['a'] [['b']] rfl
  · exact (queue_pop_contract { queue := [], maxSize := 10, finished := false }).1 rfl rfl
theorem sanitizeLine_foldl_eq (line : List Char) (acc : List Char) :
    line.foldl
      (fun acc c =>
        if isPlainByte c then acc ++ [c]
        else acc ++ (Char.ofNat 92 :: 'x' :: hexByte c.toNat))
      acc = acc ++ line.flatMap escSpec := by
  induction line generalizing acc with
  | nil => simp
  | cons c rest ih =>
      simp only [List.foldl_cons, List.flatMap_cons, ih, escSpec]
      split
      · simp
      · simp

/-- C6: `sanitizeLine` maps every printable-ASCII-or-tab byte to itself and
every other byte to the four-character sequence backslash-x plus two hex
digits; in particular a line containing byte value 7 yields the literal text
"\x07" and the raw byte 7 does not survive into the output. -/
theorem sanitizeLine_escapes (l : List Char) (hl : ∀ c ∈ l, c.toNat < 256) :
    sanitizeLine l = l.flatMap escSpec
    ∧ (∀ c ∈ l, isPlainByte c = true → escSpec c = [c])
    ∧ (∀ c ∈ l, isPlainByte c = false →
        escSpec c = Char.ofNat 92 :: 'x' :: hexByte c.toNat ∧ (escSpec c).length = 4)
    ∧ sanitizeLine ['b', Char.ofNat 7, 'c']
        = ['b', Char.ofNat 92, 'x', '0', '7', 'c']
    ∧ Char.ofNat 7 ∉ sanitizeLine ['b', Char.ofNat 7, 'c'] := by
  refine ⟨?_, ?_, ?_, ?_, ?_⟩
  · simpa using sanitizeLine_foldl_eq l []
  · intro c _ hc
    simp [escSpec, hc]
  · intro c _ hc
    constructor
    · simp [escSpec, hc]
    · simp [escSpec, hc, hexByte]
  · decide
  · decide

theorem sanitizeLine_escapes_witness :
    sanitizeLine ['b', Char.ofNat 7, 'c'] = ['b', Char.ofNat 92, 'x', '0', '7', 'c']
    ∧ Char.ofNat 7 ∉ sanitizeLine ['b', Char.ofNat 7, 'c'] :=
  ⟨(sanitizeLine_escapes ['b', Char.ofNat 7, 'c'] (by decide)).2.2.2.1,
   (sanitizeLine_escapes ['b', Char.ofNat 7, 'c'] (by decide)).2.2.2.2⟩
theorem findSub_isPrefix (l q : List Char) (pos : Nat)
    (h : findSub l q = some pos) : q.isPrefixOf (l.drop pos) = true := by
  induction l generalizing pos with
  | nil =>
      simp only [findSub] at h
      split at h
      · rename_i hp
        cases h
        exact hp
      · cases h
  | cons c l2 ih =>
      simp only [findSub] at h
      split at h
      · rename_i hp
        cases h
        exact hp
      · simp only [Option.map_eq_some'] at h
        obtain ⟨m, hm, hpos⟩ := h
        subst hpos
        simpa using ih m hm

theorem findSub_take_eq (l q : List Char) (pos : Nat)
    (h : findSub l q = some pos) : (l.drop pos).take q.length = q := by
  have hp := findSub_isPrefix l q pos h
  have : q <+: l.drop pos := by
    exact List.isPrefixOf_iff_prefix.mp hp
  exact (List.prefix_iff_eq_take.mp this).symm

/-- C7: in substring mode, a matched line longer than the 180-character
window with the match away from both ends is rendered with 90 characters
(half the window) of margin on each side of the match, the leading "... "
and trailing " ..." truncation markers, and the red/reset highlight markers
bracketing exactly the matched substring. -/
theorem truncate_highlight_window (line query : List Char) (pos : Nat)
    (hf : findSub line query = some pos) (h1 : 90 < pos)
    (h2 : pos + query.length + 90 < line.length) :
    truncateAndHighlightMatch line query 180 =
      "... ".toList ++ (line.drop (pos - 90)).take 90
        ++ redCode ++ query ++ resetCode
        ++ (line.drop (pos + query.length)).take 90 ++ " ...".toList := by
  have hq : (line.drop pos).take query.length = query := findSub_take_eq line query pos hf
  have hA : ((line.drop (pos - 90)).take 90).length = 90 := by
    simp only [List.length_take, List.length_drop]
    omega
  have hsnip :
      (line.drop (pos - 90)).take (pos + query.length + 90 - (pos - 90))
        = ((line.drop (pos - 90)).take 90 ++ query)
          ++ (line.drop (pos + query.length)).take 90 := by
    have e1 : pos + query.length + 90 - (pos - 90) = 90 + (query.length + 90) := by omega
    rw [e1, List.take_add, List.drop_drop]
    have e2 : pos - 90 + 90 = pos := by omega
    rw [e2, List.take_add, List.drop_drop, hq]
    have e3 : pos + query.length = pos + query.length := rfl
    simp [List.append_assoc]
  have hAq : ((line.drop (pos - 90)).take 90 ++ query).length = 90 + query.length := by
    simp [hA]
  simp only [truncateAndHighlightMatch, hf]
  have hdiv : (180 : Nat) / 2 = 90 := by norm_num
  rw [hdiv]
  rw [if_pos h1]
  have hmin : min (pos + query.length + 90) line.length = pos + query.length + 90 :=
    Nat.min_eq_left (Nat.le_of_lt h2)
  rw [hmin, hsnip]
  have hmp : pos - (pos - 90) = 90 := by omega
  rw [hmp]
  rw [List.take_left' hAq, List.drop_left' hAq]
  have hcomb :
      ((line.drop (pos - 90)).take 90 ++ query) ++ resetCode
          ++ (line.drop (pos + query.length)).take 90
        = (line.drop (pos - 90)).take 90
          ++ (query ++ resetCode ++ (line.drop (pos + query.length)).take 90) := by
    simp [List.append_assoc]
  rw [hcomb, List.take_left' hA, List.drop_left' hA]
  have hstart : 0 < pos - 90 := by omega
  rw [if_pos hstart, if_pos h2]
  simp [List.append_assoc]

theorem truncate_highlight_window_witness :
    truncateAndHighlightMatch
        (List.replicate 95 'a' ++ "needle".toList ++ List.replicate 95 'b')
        "needle".toList 180 =
      "... ".toList
        ++ ((List.replicate 95 'a' ++ "needle".toList
              ++ List.replicate 95 'b').drop (95 - 90)).take 90
        ++ redCode ++ "needle".toList ++ resetCode
        ++ ((List.replicate 95 'a' ++ "needle".toList
              ++ List.replicate 95 'b').drop (95 + "needle".toList.length)).take 90
        ++ " ...".toList :=
  truncate_highlight_window
    (List.replicate 95 'a' ++ "needle".toList ++ List.replicate 95 'b')
    "needle".toList 95 (by decide) (by decide) (by decide)

/-- C10: in regex mode the snippet formatter looks for the literal query
text, not the regex match; on a line the regex matches but which does not
contain the query verbatim, an overlong line is cut to its first 180
characters with the "...(truncated)" suffix, no highlight markers are
inserted, and this is exactly the snippet recorded for the line. -/
theorem truncate_no_literal_match (line query : List Char)
    (regexSearch : List Char → Bool)
    (hn : findSub line query = none) (hm : regexSearch line = true)
    (hlong : 180 < line.length) :
    truncateAndHighlightMatch line query 180
        = line.take 180 ++ "...(truncated)".toList
    ∧ (Char.ofNat 27 ∉ line → Char.ofNat 27 ∉ truncateAndHighlightMatch line query 180)
    ∧ collectMatches query true regexSearch [line] 1
        = [(1, sanitizeLine (line.take 180 ++ "...(truncated)".toList))] := by
  have heq : truncateAndHighlightMatch line query 180
      = line.take 180 ++ "...(truncated)".toList := by
    simp only [truncateAndHighlightMatch, hn]
    rw [if_pos hlong]
  refine ⟨heq, ?_, ?_⟩
  · intro hesc hmem
    rw [heq] at hmem
    rcases List.mem_append.mp hmem with h | h
    · exact hesc (List.take_subset 180 line h)
    · revert h
      decide
  · simp [collectMatches, lineFound, hm, heq]

theorem truncate_no_literal_match_witness :
    truncateAndHighlightMatch (List.replicate 181 'a') ['b'] 180
        = (List.replicate 181 'a').take 180 ++ "...(truncated)".toList
    ∧ Char.ofNat 27 ∉ truncateAndHighlightMatch (List.replicate 181 'a') ['b'] 180 :=
  ⟨(truncate_no_literal_match (List.replicate 181 'a') ['b'] (fun _ => true)
      (by decide) rfl (by decide)).1,
   (truncate_no_literal_match (List.replicate 181 'a') ['b'] (fun _ => true)
      (by decide) rfl (by decide)).2.1 (by decide)⟩

/-- C2 counterexample: a file that cannot be opened is NOT counted in
`filesScanned` --- starting from a status with 5 files scanned, the claim
predicts 6 after the call, but the counter is still 5 (the open-failure
return in `searchInFile` happens before the increment). -/
theorem searchInFile_cannot_open_cex :
    ¬ ((searchInFile { path := "f".toList, canOpen := false, lines := [] }
          "q".toList false true (fun _ => false)
          { filesScanned := 5, currentFile := [], fileHits := 0, totalHits := 0
            lastError := "none".toList }).status.filesScanned = 5 + 1) := by
  decide

/-- C2 (amended): for a candidate file that cannot be opened, `searchInFile`
records the failure in `lastError` and returns with zero matches and no
result-file output, but the file is NOT counted: neither `filesScanned` nor
the processed-files counter is incremented. -/
theorem searchInFile_cannot_open (f : FileEntry) (query : List Char)
    (use_regex regexOk : Bool) (regexSearch : List Char → Bool) (st : StatusData)
    (h : f.canOpen = false) :
    searchInFile f query use_regex regexOk regexSearch st =
      { opened := false
        status := { st with lastError := "Could not open: ".toList ++ f.path }
        output := []
        filesProcessedDelta := 0 } := by
  simp [searchInFile, h]

theorem searchInFile_cannot_open_witness :
    searchInFile { path := "f".toList, canOpen := false, lines := [] }
        "q".toList false true (fun _ => false) initStatus =
      { opened := false
        status := { initStatus with lastError := "Could not open: ".toList ++ "f".toList }
        output := []
        filesProcessedDelta := 0 } :=
  searchInFile_cannot_open { path := "f".toList, canOpen := false, lines := [] }
    "q".toList false true (fun _ => false) initStatus rfl

theorem collectMatches_length (query : List Char) (use_regex : Bool)
    (regexSearch : List Char → Bool) (ls : List (List Char)) (n : Nat) :
    (collectMatches query use_regex regexSearch ls n).length
      = (ls.filter (lineFound use_regex regexSearch query)).length := by
  induction ls generalizing n with
  | nil => simp [collectMatches]
  | cons l ls ih =>
      cases hb : lineFound use_regex regexSearch query l with
      | false => simp [collectMatches, List.filter_cons, hb, ih]
      | true => simp [collectMatches, List.filter_cons, hb, ih]

theorem collectMatches_lineNumber_ge (query : List Char) (use_regex : Bool)
    (regexSearch : List Char → Bool) (ls : List (List Char)) (n : Nat) :
    ∀ m ∈ collectMatches query use_regex regexSearch ls n, n ≤ m.1 := by
  induction ls generalizing n with
  | nil => simp [collectMatches]
  | cons l ls ih =>
      intro m hm
      cases hb : lineFound use_regex regexSearch query l with
      | false =>
          rw [show collectMatches query use_regex regexSearch (l :: ls) n
              = collectMatches query use_regex regexSearch ls (n + 1) by
            simp [collectMatches, hb]] at hm
          exact Nat.le_of_succ_le (ih (n + 1) m hm)
      | true =>
          rw [show collectMatches query use_regex regexSearch (l :: ls) n
              = (n, sanitizeLine (truncateAndHighlightMatch l query 180))
                :: collectMatches query use_regex regexSearch ls (n + 1) by
            simp [collectMatches, hb]] at hm
          rcases List.mem_cons.mp hm with hm | hm
          · subst hm
            exact Nat.le_refl n
          · exact Nat.le_of_succ_le (ih (n + 1) m hm)

theorem collectMatches_chain (query : List Char) (use_regex : Bool)
    (regexSearch : List Char → Bool) (ls : List (List Char)) (n : Nat) :
    List.Chain' (fun a b => a < b)
      ((collectMatches query use_regex regexSearch ls n).map Prod.fst) := by
  induction ls generalizing n with
  | nil => simp [collectMatches]
  | cons l ls ih =>
      cases hb : lineFound use_regex regexSearch query l with
      | false =>
          rw [show collectMatches query use_regex regexSearch (l :: ls) n
              = collectMatches query use_regex regexSearch ls (n + 1) by
            simp [collectMatches, hb]]
          exact ih (n + 1)
      | true =>
          rw [show collectMatches query use_regex regexSearch (l :: ls) n
              = (n, sanitizeLine (truncateAndHighlightMatch l query 180))
                :: collectMatches query use_regex regexSearch ls (n + 1) by
            simp [collectMatches, hb]]
          rw [List.map_cons, List.chain'_cons']
          refine ⟨?_, ih (n + 1)⟩
          intro b hb2
          have hbmem : b ∈ (collectMatches query use_regex regexSearch ls (n + 1)).map
              Prod.fst := List.mem_of_mem_head? hb2
          rcases List.mem_map.mp hbmem with ⟨m, hm, hfst⟩
          have := collectMatches_lineNumber_ge query use_regex regexSearch ls (n + 1) m hm
          omega

/-- C9: for a file that opens (and whose pattern compiles in regex mode),
the per-file search emits no block when no line matches; when some line
matches it emits exactly one block --- the header naming the file and the
hit count, one `    Line <k>: <snippet>` line per match, then a blank
line --- where the number of match lines equals the number of matching
lines of the file and the line numbers are strictly increasing. -/
theorem searchInFile_block_format (f : FileEntry) (query : List Char)
    (use_regex regexOk : Bool) (regexSearch : List Char → Bool) (st : StatusData)
    (hopen : f.canOpen = true) (hrx : use_regex = true → regexOk = true) :
    (collectMatches query use_regex regexSearch f.lines 1 = [] →
      (searchInFile f query use_regex regexOk regexSearch st).output = [])
    ∧ (collectMatches query use_regex regexSearch f.lines 1 ≠ [] →
      (searchInFile f query use_regex regexOk regexSearch st).output
        = headerLine f.path (collectMatches query use_regex regexSearch f.lines 1).length
            :: ((collectMatches query use_regex regexSearch f.lines 1).map matchLine
                ++ [[]]))
    ∧ (collectMatches query use_regex regexSearch f.lines 1).length
        = (f.lines.filter (lineFound use_regex regexSearch query)).length
    ∧ List.Chain' (fun a b => a < b)
        ((collectMatches query use_regex regexSearch f.lines 1).map Prod.fst) := by
  have hguard : (use_regex && !regexOk) = false := by
    cases hu : use_regex with
    | false => rfl
    | true =>
        rw [hrx hu]
        rfl
  refine ⟨?_, ?_, collectMatches_length query use_regex regexSearch f.lines 1,
    collectMatches_chain query use_regex regexSearch f.lines 1⟩
  · intro hms
    simp [searchInFile, hopen, hguard, hms]
  · intro hms
    simp [searchInFile, hopen, hguard, List.isEmpty_iff, hms]

theorem searchInFile_block_format_witness :
    (searchInFile
        { path := "f1.txt".toList, canOpen := true
          lines := ["a needle".toList, "nothing".toList, "needle again".toList] }
        "needle".toList false true (fun _ => false) initStatus).output
      = headerLine "f1.txt".toList
          (collectMatches "needle".toList false (fun _ => false)
            ["a needle".toList, "nothing".toList, "needle again".toList] 1).length
          :: ((collectMatches "needle".toList false (fun _ => false)
                ["a needle".toList, "nothing".toList, "needle again".toList] 1).map
                  matchLine
              ++ [[]]) :=
  (searchInFile_block_format
    { path := "f1.txt".toList, canOpen := true
      lines := ["a needle".toList, "nothing".toList, "needle again".toList] }
    "needle".toList false true (fun _ => false) initStatus rfl
    (by decide)).2.1 (by decide)

theorem parse_dot_other (d : Char) (rest : List Char) (hd : ¬ d = '*') :
    parseRegexTokens ('.' :: d :: rest)
      = (parseRegexTokens (d :: rest)).map fun ts => Tok.anyOne :: ts := by
  rw [parseRegexTokens.eq_def]
  show (if d = '*' then (parseRegexTokens rest).map (fun ts => Tok.star :: ts)
        else (parseRegexTokens (d :: rest)).map fun ts => Tok.anyOne :: ts)
      = (parseRegexTokens (d :: rest)).map fun ts => Tok.anyOne :: ts
  rw [if_neg hd]

theorem parse_ordinary (c : Char) (rest : List Char)
    (h1 : ¬ c = '$') (h2 : ¬ c = Char.ofNat 92) (h3 : ¬ c = '.') (h4 : ¬ c = '*') :
    parseRegexTokens (c :: rest)
      = (parseRegexTokens rest).map fun ts => Tok.lit c :: ts := by
  rw [parseRegexTokens.eq_def]
  show (if c = '$' then (if rest = [] then some [] else none)
        else if c = Char.ofNat 92 then
          (match rest with
           | [] => none
           | d :: rest2 => (parseRegexTokens rest2).map fun ts => Tok.lit d :: ts)
        else if c = '.' then
          (match rest with
           | [] => none
           | d :: rest2 =>
             if d = '*' then (parseRegexTokens rest2).map fun ts => Tok.star :: ts
             else (parseRegexTokens (d :: rest2)).map fun ts => Tok.anyOne :: ts)
        else if c = '*' then none
        else (parseRegexTokens rest).map fun ts => Tok.lit c :: ts)
      = (parseRegexTokens rest).map fun ts => Tok.lit c :: ts
  rw [if_neg h1, if_neg h2, if_neg h3, if_neg h4]

theorem encode_ne_nil (c : Char) : encodeWildcardChar c ≠ [] := by
  unfold encodeWildcardChar
  split_ifs <;> simp

theorem enc_head_ne_star (c : Char) (e : Char) (es : List Char)
    (h : encodeWildcardChar c = e :: es) : ¬ e = '*' := by
  unfold encodeWildcardChar at h
  split_ifs at h with H1 H2 H3
  · injection h with h1 h2
    rw [← h1]
    decide
  · injection h with h1 h2
    rw [← h1]
    decide
  · injection h with h1 h2
    rw [← h1]
    decide
  · injection h with h1 h2
    intro he
    rw [he] at h1
    exact H1 h1

theorem enc_append_head_ne_star (w : List Char) (d : Char) (rest : List Char)
    (h : w.flatMap encodeWildcardChar ++ ['$'] = d :: rest) : ¬ d = '*' := by
  cases w with
  | nil =>
      simp only [List.flatMap_nil, List.nil_append] at h
      injection h with h1 h2
      rw [← h1]
      decide
  | cons c w2 =>
      rcases he : encodeWildcardChar c with _ | ⟨e, es⟩
      · exact absurd he (encode_ne_nil c)
      · rw [List.flatMap_cons, he, List.cons_append, List.cons_append] at h
        injection h with h1 h2
        rw [← h1]
        exact enc_head_ne_star c e es he

theorem parse_wildcard_body (w : List Char) :
    parseRegexTokens (w.flatMap encodeWildcardChar ++ ['$'])
      = some (w.map tokOfWildcardChar) := by
  induction w with
  | nil => rfl
  | cons c w2 ih =>
      by_cases h1 : c = '*'
      · subst h1
        rw [show (('*' :: w2).flatMap encodeWildcardChar ++ ['$'])
            = '.' :: '*' :: (w2.flatMap encodeWildcardChar ++ ['$']) from rfl]
        rw [show parseRegexTokens ('.' :: '*' :: (w2.flatMap encodeWildcardChar ++ ['$']))
            = (parseRegexTokens (w2.flatMap encodeWildcardChar ++ ['$'])).map
                (fun ts => Tok.star :: ts) from rfl]
        rw [ih]
        rfl
      · by_cases h2 : c = '?'
        · subst h2
          rw [show (('?' :: w2).flatMap encodeWildcardChar ++ ['$'])
              = '.' :: (w2.flatMap encodeWildcardChar ++ ['$']) from rfl]
          rcases hr : w2.flatMap encodeWildcardChar ++ ['$'] with _ | ⟨d, rest⟩
          · exact absurd hr (by simp)
          · have hd := enc_append_head_ne_star w2 d rest hr
            rw [parse_dot_other d rest hd, ← hr, ih]
            rfl
        · by_cases h3 : isSpecialChar c
          · rw [show ((c :: w2).flatMap encodeWildcardChar ++ ['$'])
                = encodeWildcardChar c ++ (w2.flatMap encodeWildcardChar ++ ['$']) by
              simp [List.flatMap_cons]]
            rw [show encodeWildcardChar c = [Char.ofNat 92, c] by
              unfold encodeWildcardChar
              rw [if_neg h1, if_neg h2, if_pos h3]]
            rw [show ([Char.ofNat 92, c] ++ (w2.flatMap encodeWildcardChar ++ ['$']))
                = Char.ofNat 92 :: c :: (w2.flatMap encodeWildcardChar ++ ['$']) from rfl]
            rw [show parseRegexTokens
                  (Char.ofNat 92 :: c :: (w2.flatMap encodeWildcardChar ++ ['$']))
                = (parseRegexTokens (w2.flatMap encodeWildcardChar ++ ['$'])).map
                    (fun ts => Tok.lit c :: ts) from rfl]
            rw [ih]
            rw [show (c :: w2).map tokOfWildcardChar
                = tokOfWildcardChar c :: w2.map tokOfWildcardChar from rfl]
            rw [show tokOfWildcardChar c = Tok.lit c by
              unfold tokOfWildcardChar
              rw [if_neg h1, if_neg h2]]
            rfl
          · have hc1 : ¬ c = '$' := fun hc => h3 (by rw [hc]; decide)
            have hc2 : ¬ c = Char.ofNat 92 := fun hc => h3 (by rw [hc]; decide)
            have hc3 : ¬ c = '.' := fun hc => h3 (by rw [hc]; decide)
            rw [show ((c :: w2).flatMap encodeWildcardChar ++ ['$'])
                = encodeWildcardChar c ++ (w2.flatMap encodeWildcardChar ++ ['$']) by
              simp [List.flatMap_cons]]
            rw [show encodeWildcardChar c = [c] by
              unfold encodeWildcardChar
              rw [if_neg h1, if_neg h2, if_neg h3]]
            rw [show ([c] ++ (w2.flatMap encodeWildcardChar ++ ['$']))
                = c :: (w2.flatMap encodeWildcardChar ++ ['$']) from rfl]
            rw [parse_ordinary c _ hc1 hc2 hc3 h1, ih]
            rw [show (c :: w2).map tokOfWildcardChar
                = tokOfWildcardChar c :: w2.map tokOfWildcardChar from rfl]
            rw [show tokOfWildcardChar c = Tok.lit c by
              unfold tokOfWildcardChar
              rw [if_neg h1, if_neg h2]]
            rfl

theorem compile_wildcard (w : List Char) :
    compileAnchored (wildcardToRegex w) = some (w.map tokOfWildcardChar) := by
  rw [show compileAnchored (wildcardToRegex w)
      = parseRegexTokens (w.flatMap encodeWildcardChar ++ ['$']) from rfl]
  exact parse_wildcard_body w

theorem wmatch_nil (s : List Char) : regexFullMatchI [] s = s.isEmpty := by
  rw [regexFullMatchI.eq_def]

theorem wmatch_star (ts : List Tok) (s : List Char) :
    regexFullMatchI (Tok.star :: ts) s
      = (regexFullMatchI ts s ||
          (match s with
           | [] => false
           | c :: s2 => !isLineTerm c && regexFullMatchI (Tok.star :: ts) s2)) := by
  rw [regexFullMatchI.eq_def]

theorem wmatch_any (ts : List Tok) (s : List Char) :
    regexFullMatchI (Tok.anyOne :: ts) s
      = (match s with
         | [] => false
         | c :: s2 => !isLineTerm c && regexFullMatchI ts s2) := by
  rw [regexFullMatchI.eq_def]

theorem wmatch_lit (c0 : Char) (ts : List Tok) (s : List Char) :
    regexFullMatchI (Tok.lit c0 :: ts) s
      = (match s with
         | [] => false
         | d :: s2 => eqI c0 d && regexFullMatchI ts s2) := by
  rw [regexFullMatchI.eq_def]

theorem wspec_nil (s : List Char) : wildMatchSpec [] s = s.isEmpty := by
  rw [wildMatchSpec.eq_def]

theorem wspec_cons (p : Char) (ps s : List Char) :
    wildMatchSpec (p :: ps) s
      = (if p = '*' then
           wildMatchSpec ps s ||
             (match s with
              | [] => false
              | _ :: s2 => wildMatchSpec (p :: ps) s2)
         else
           match s with
           | [] => false
           | c :: s2 => (if p = '?' then true else eqI p c) && wildMatchSpec ps s2) := by
  rw [wildMatchSpec.eq_def]

theorem wmatch_eq_spec :
    ∀ (N : Nat) (w s : List Char), w.length + s.length ≤ N →
      (∀ c ∈ s, isLineTerm c = false) →
      regexFullMatchI (w.map tokOfWildcardChar) s = wildMatchSpec w s := by
  intro N
  induction N with
  | zero =>
      intro w s hlen hs
      have hw : w = [] := List.length_eq_zero.mp (by omega)
      have hs0 : s = [] := List.length_eq_zero.mp (by omega)
      subst hw
      subst hs0
      rw [List.map_nil, wmatch_nil, wspec_nil]
  | succ N ih =>
      intro w s hlen hs
      cases w with
      | nil => rw [List.map_nil, wmatch_nil, wspec_nil]
      | cons p w2 =>
          rw [List.map_cons]
          have hlen2 : w2.length + s.length ≤ N := by
            simp only [List.length_cons] at hlen
            omega
          by_cases hp1 : p = '*'
          · subst hp1
            rw [show tokOfWildcardChar '*' = Tok.star from rfl]
            rw [wmatch_star, wspec_cons, if_pos rfl]
            cases s with
            | nil =>
                have h1 := ih w2 [] (by simpa using hlen2) (by simp)
                simp [h1]
            | cons c s2 =>
                have hc : isLineTerm c = false := hs c (List.mem_cons_self c s2)
                have h1 := ih w2 (c :: s2) hlen2 hs
                have h2 := ih ('*' :: w2) s2
                  (by simp only [List.length_cons] at hlen ⊢; omega)
                  (fun x hx => hs x (List.mem_cons_of_mem c hx))
                rw [List.map_cons, show tokOfWildcardChar '*' = Tok.star from rfl] at h2
                simp [h1, h2, hc]
          · by_cases hp2 : p = '?'
            · subst hp2
              rw [show tokOfWildcardChar '?' = Tok.anyOne from rfl]
              rw [wmatch_any, wspec_cons,
                if_neg (by decide : ¬ ('?' : Char) = '*')]
              cases s with
              | nil => simp
              | cons c s2 =>
                  have hc : isLineTerm c = false := hs c (List.mem_cons_self c s2)
                  have h1 := ih w2 s2
                    (by simp only [List.length_cons] at hlen2; omega)
                    (fun x hx => hs x (List.mem_cons_of_mem c hx))
                  simp [hc, h1]
            · have htok : tokOfWildcardChar p = Tok.lit p := by
                unfold tokOfWildcardChar
                rw [if_neg hp1, if_neg hp2]
              rw [htok, wmatch_lit, wspec_cons, if_neg hp1]
              cases s with
              | nil => simp
              | cons c s2 =>
                  have h1 := ih w2 s2
                    (by simp only [List.length_cons] at hlen2; omega)
                    (fun x hx => hs x (List.mem_cons_of_mem c hx))
                  simp [h1, hp2]

theorem matchesWildcardCompiled_eq_spec (pat name : List Char)
    (hname : ∀ c ∈ name, isLineTerm c = false) :
    matchesWildcardCompiled name pat = wildMatchSpec pat name := by
  unfold matchesWildcardCompiled
  rw [compile_wildcard]
  show matchesWildcard name (pat.map tokOfWildcardChar) = wildMatchSpec pat name
  unfold matchesWildcard
  exact wmatch_eq_spec (pat.length + name.length) pat name le_rfl hname

theorem pushedTasks_matches (tks : List Tok) (walk : List WalkItem) (e : DirEntry)
    (hmem : e ∈ pushedTasks (some tks) walk) : matchesWildcard e.name tks = true := by
  induction walk with
  | nil => simp [pushedTasks] at hmem
  | cons it ws ih =>
      cases it with
      | entry e2 =>
          rw [show pushedTasks (some tks) (WalkItem.entry e2 :: ws)
              = (if entryPasses (some tks) e2 then [e2] else [])
                ++ pushedTasks (some tks) ws from rfl] at hmem
          rcases List.mem_append.mp hmem with hm | hm
          · by_cases hp : entryPasses (some tks) e2
            · rw [if_pos hp] at hm
              rw [List.mem_singleton] at hm
              subst hm
              simp only [entryPasses, Bool.and_eq_true] at hp
              exact hp.2
            · rw [if_neg hp] at hm
              cases hm
          · exact ih hm
      | entryError p w =>
          rw [show pushedTasks (some tks) (WalkItem.entryError p w :: ws)
              = pushedTasks (some tks) ws from rfl] at hmem
          exact ih hmem

/-- C8 counterexample: the claim that the translation makes `?` match
exactly one character fails on a filename consisting of one newline byte:
the anchored compiled pattern for the wildcard "?" rejects it (ECMAScript
`.` does not match line terminators), while the claimed semantics accepts
it. -/
theorem wildcard_newline_cex :
    matchesWildcardCompiled [Char.ofNat 10] ['?'] = false
    ∧ wildMatchSpec ['?'] [Char.ofNat 10] = true := by
  constructor
  · unfold matchesWildcardCompiled
    rw [compile_wildcard]
    show matchesWildcard [Char.ofNat 10] (['?'].map tokOfWildcardChar) = false
    rw [show ['?'].map tokOfWildcardChar = [Tok.anyOne] from rfl]
    unfold matchesWildcard
    rw [wmatch_any]
    show (!isLineTerm (Char.ofNat 10) && regexFullMatchI [] []) = false
    rw [show isLineTerm (Char.ofNat 10) = true from rfl]
    simp
  · rw [wspec_cons, if_neg (by decide : ¬ ('?' : Char) = '*')]
    show ((if ('?' : Char) = '?' then true else eqI '?' (Char.ofNat 10))
        && wildMatchSpec [] []) = true
    rw [if_pos rfl, wspec_nil]
    rfl

/-- C8 (amended): on filenames free of line terminators the compiled filter
agrees exactly with the claimed wildcard semantics (`*` zero or more
characters, `?` exactly one, case-insensitive literals); with the filter
"*.txt" over a directory holding regular files a.txt and a.log only a.txt is
pushed as a task; and an entry whose name does not match the compiled
pattern is never pushed.  (On a name containing a line terminator the
compiled `.`/`.*` atoms reject where the claimed semantics accepts.) -/
theorem wildcard_filter_semantics (pat name : List Char)
    (hname : ∀ c ∈ name, isLineTerm c = false) :
    matchesWildcardCompiled name pat = wildMatchSpec pat name
    ∧ pushedTasks (filterToks (some "*.txt".toList))
        [WalkItem.entry
          { name := "a.txt".toList, path := "d/a.txt".toList, isRegular := true
            canOpen := true, lines := [] },
         WalkItem.entry
          { name := "a.log".toList, path := "d/a.log".toList, isRegular := true
            canOpen := true, lines := [] }]
      = [{ name := "a.txt".toList, path := "d/a.txt".toList, isRegular := true
           canOpen := true, lines := [] }]
    ∧ (∀ (tks : List Tok) (walk : List WalkItem) (e : DirEntry),
        e ∈ pushedTasks (some tks) walk → matchesWildcard e.name tks = true) := by
  refine ⟨matchesWildcardCompiled_eq_spec pat name hname, ?_, ?_⟩
  · rw [show filterToks (some "*.txt".toList)
        = some ("*.txt".toList.map tokOfWildcardChar) from by
      unfold filterToks
      exact compile_wildcard "*.txt".toList]
    have h1 : matchesWildcard "a.txt".toList ("*.txt".toList.map tokOfWildcardChar)
        = true := by
      unfold matchesWildcard
      rw [wmatch_eq_spec ("*.txt".toList.length + "a.txt".toList.length)
        "*.txt".toList "a.txt".toList le_rfl (by decide)]
      simp [wildMatchSpec, eqI]
    have h2 : matchesWildcard "a.log".toList ("*.txt".toList.map tokOfWildcardChar)
        = false := by
      unfold matchesWildcard
      rw [wmatch_eq_spec ("*.txt".toList.length + "a.log".toList.length)
        "*.txt".toList "a.log".toList le_rfl (by decide)]
      simp [wildMatchSpec, eqI]
    rw [show pushedTasks (some ("*.txt".toList.map tokOfWildcardChar))
          [WalkItem.entry
            { name := "a.txt".toList, path := "d/a.txt".toList, isRegular := true
              canOpen := true, lines := [] },
           WalkItem.entry
            { name := "a.log".toList, path := "d/a.log".toList, isRegular := true
              canOpen := true, lines := [] }]
        = (if matchesWildcard "a.txt".toList ("*.txt".toList.map tokOfWildcardChar) = true
           then [{ name := "a.txt".toList, path := "d/a.txt".toList, isRegular := true
                   canOpen := true, lines := [] }]
           else [])
          ++ ((if matchesWildcard "a.log".toList
                  ("*.txt".toList.map tokOfWildcardChar) = true
              then [{ name := "a.log".toList, path := "d/a.log".toList, isRegular := true
                      canOpen := true, lines := [] }]
              else []) ++ []) from rfl]
    rw [if_pos h1, if_neg (by
      intro hcontra
      rw [h2] at hcontra
      exact Bool.noConfusion hcontra)]
    rfl
  · intro tks walk e hmem
    exact pushedTasks_matches tks walk e hmem

theorem wildcard_filter_semantics_witness :
    matchesWildcardCompiled "a.txt".toList "*.txt".toList
      = wildMatchSpec "*.txt".toList "a.txt".toList :=
  (wildcard_filter_semantics "*.txt".toList "a.txt".toList (by decide)).1

theorem markFinished_not_in_entryActions (filt : Option (List Tok)) (it : WalkItem) :
    PAct.markFinished ∉ entryActions filt it := by
  cases it with
  | entry e =>
      simp only [entryActions]
      split
      · simp
      · simp
  | entryError p what => simp [entryActions]

/-- C5: on every exit path of the producer --- clean completion of the walk,
per-entry errors, or a fatal traversal error --- the trace contains exactly
one `markFinished` action, and it is the last action. -/
theorem producer_finishes_last (dir : List Char) (filt : Option (List Tok))
    (walk : List WalkItem) (fatal : Option (List Char)) :
    (producerTrace dir filt walk fatal).count PAct.markFinished = 1
    ∧ (producerTrace dir filt walk fatal).getLast? = some PAct.markFinished := by
  constructor
  · unfold producerTrace
    rw [List.count_append, List.count_append]
    have h1 : (walk.flatMap (entryActions filt)).count PAct.markFinished = 0 := by
      induction walk with
      | nil => simp
      | cons it ws ih =>
          rw [List.flatMap_cons, List.count_append, ih,
            List.count_eq_zero.mpr (markFinished_not_in_entryActions filt it)]
    rw [h1]
    cases fatal with
    | none => rfl
    | some what => rfl
  · unfold producerTrace
    exact List.getLast?_concat _

theorem runTasks_invalid_regex (query : List Char) (regexSearch : List Char → Bool)
    (ts : List DirEntry) (st : StatusData) :
    (runTasks query true false regexSearch ts st).1
        = (ts.filter (fun e => e.canOpen)).map (fun e => e.path)
    ∧ (runTasks query true false regexSearch ts st).2.1 = []
    ∧ (runTasks query true false regexSearch ts st).2.2.totalHits = st.totalHits
    ∧ (runTasks query true false regexSearch ts st).2.2.filesScanned = st.filesScanned := by
  induction ts generalizing st with
  | nil => exact ⟨rfl, rfl, rfl, rfl⟩
  | cons t ts ih =>
      cases hc : t.canOpen with
      | false =>
          have hsf : searchInFile ⟨t.path, t.canOpen, t.lines⟩ query true false regexSearch
              { st with currentFile := t.path, fileHits := 0 }
              = { opened := false
                  status := { st with
                    currentFile := t.path
                    fileHits := 0
                    lastError := "Could not open: ".toList ++ t.path }
                  output := []
                  filesProcessedDelta := 0 } := by
            simp [searchInFile, hc]
          rw [show runTasks query true false regexSearch (t :: ts) st
              = ((if (searchInFile ⟨t.path, t.canOpen, t.lines⟩ query true false regexSearch
                    { st with currentFile := t.path, fileHits := 0 }).opened
                  then [t.path] else [])
                  ++ (runTasks query true false regexSearch ts
                      (searchInFile ⟨t.path, t.canOpen, t.lines⟩ query true false regexSearch
                        { st with currentFile := t.path, fileHits := 0 }).status).1,
                 (searchInFile ⟨t.path, t.canOpen, t.lines⟩ query true false regexSearch
                    { st with currentFile := t.path, fileHits := 0 }).output
                  ++ (runTasks query true false regexSearch ts
                      (searchInFile ⟨t.path, t.canOpen, t.lines⟩ query true false regexSearch
                        { st with currentFile := t.path, fileHits := 0 }).status).2.1,
                 (runTasks query true false regexSearch ts
                    (searchInFile ⟨t.path, t.canOpen, t.lines⟩ query true false regexSearch
                      { st with currentFile := t.path, fileHits := 0 }).status).2.2)
              from rfl]
          rw [hsf]
          have hrest := ih { st with
            currentFile := t.path
            fileHits := 0
            lastError := "Could not open: ".toList ++ t.path }
          refine ⟨?_, ?_, ?_, ?_⟩
          · simp only [List.filter_cons, hc]
            simpa using hrest.1
          · simpa using hrest.2.1
          · exact hrest.2.2.1
          · exact hrest.2.2.2
      | true =>
          have hsf : searchInFile ⟨t.path, t.canOpen, t.lines⟩ query true false regexSearch
              { st with currentFile := t.path, fileHits := 0 }
              = { opened := true
                  status := { st with
                    currentFile := t.path
                    fileHits := 0
                    lastError := "Invalid regex: ".toList ++ query }
                  output := []
                  filesProcessedDelta := 0 } := by
            simp [searchInFile, hc]
          rw [show runTasks query true false regexSearch (t :: ts) st
              = ((if (searchInFile ⟨t.path, t.canOpen, t.lines⟩ query true false regexSearch
                    { st with currentFile := t.path, fileHits := 0 }).opened
                  then [t.path] else [])
                  ++ (runTasks query true false regexSearch ts
                      (searchInFile ⟨t.path, t.canOpen, t.lines⟩ query true false regexSearch
                        { st with currentFile := t.path, fileHits := 0 }).status).1,
                 (searchInFile ⟨t.path, t.canOpen, t.lines⟩ query true false regexSearch
                    { st with currentFile := t.path, fileHits := 0 }).output
                  ++ (runTasks query true false regexSearch ts
                      (searchInFile ⟨t.path, t.canOpen, t.lines⟩ query true false regexSearch
                        { st with currentFile := t.path, fileHits := 0 }).status).2.1,
                 (runTasks query true false regexSearch ts
                    (searchInFile ⟨t.path, t.canOpen, t.lines⟩ query true false regexSearch
                      { st with currentFile := t.path, fileHits := 0 }).status).2.2)
              from rfl]
          rw [hsf]
          have hrest := ih { st with
            currentFile := t.path
            fileHits := 0
            lastError := "Invalid regex: ".toList ++ query }
          refine ⟨?_, ?_, ?_, ?_⟩
          · simp only [List.filter_cons, hc]
            simpa using hrest.1
          · simpa using hrest.2.1
          · exact hrest.2.2.1
          · exact hrest.2.2.2

theorem foldl_applyPAct_counters (acts : List PAct) (st : StatusData) :
    (acts.foldl applyPAct st).totalHits = st.totalHits
    ∧ (acts.foldl applyPAct st).filesScanned = st.filesScanned := by
  induction acts generalizing st with
  | nil => exact ⟨rfl, rfl⟩
  | cons a acts ih =>
      rw [List.foldl_cons]
      have hstep : (applyPAct st a).totalHits = st.totalHits
          ∧ (applyPAct st a).filesScanned = st.filesScanned := by
        cases a <;> exact ⟨rfl, rfl⟩
      have := ih (applyPAct st a)
      exact ⟨this.1.trans hstep.1, this.2.trans hstep.2⟩

/-- C1 counterexample: with an invalid search regex in regex mode, the scan
does not abort before work begins --- a directory with one readable regular
file still has that file opened (the open in `searchInFile` happens before
the regex is compiled), contradicting "no file is ever opened". -/
theorem invalid_regex_scan_cex :
    (searchInDirectory "(".toList "d".toList true false (fun _ => false) none
        [WalkItem.entry
          { name := "a.txt".toList, path := "d/a.txt".toList, isRegular := true
            canOpen := true, lines := [['x']] }]
        none true).openedPaths = ["d/a.txt".toList]
    ∧ ["d/a.txt".toList] ≠ ([] : List (List Char)) := by
  constructor
  · decide
  · decide

/-- C1 (amended): an invalid search regex in regex mode does not abort the
scan.  The scan runs to completion without aborting, every candidate file
that can be opened is still opened (each per-file search then records the
invalid-regex error and returns with zero matches before reading any line),
and no entries are written to the result file; the hit and scanned-file
counters stay at zero.  Only a filename-filter compile failure or a result
file that cannot be opened aborts before any work. -/
theorem invalid_regex_scan (query dir : List Char) (regexSearch : List Char → Bool)
    (filePattern : Option (List Char)) (walk : List WalkItem)
    (fatal : Option (List Char)) :
    (searchInDirectory query dir true false regexSearch filePattern walk fatal
        true).aborted = false
    ∧ (searchInDirectory query dir true false regexSearch filePattern walk fatal
        true).resultLines = []
    ∧ (searchInDirectory query dir true false regexSearch filePattern walk fatal
        true).openedPaths
        = ((pushedTasks (filterToks filePattern) walk).filter
            (fun e => e.canOpen)).map (fun e => e.path)
    ∧ (searchInDirectory query dir true false regexSearch filePattern walk fatal
        true).status.totalHits = 0
    ∧ (searchInDirectory query dir true false regexSearch filePattern walk fatal
        true).status.filesScanned = 0 := by
  cases filePattern with
  | none =>
      have hrun := runTasks_invalid_regex query regexSearch (pushedTasks none walk)
        ((producerTrace dir none walk fatal).foldl applyPAct initStatus)
      have hcnt := foldl_applyPAct_counters (producerTrace dir none walk fatal) initStatus
      rw [show searchInDirectory query dir true false regexSearch none walk fatal true
          = { aborted := false
              openedPaths := (runTasks query true false regexSearch (pushedTasks none walk)
                ((producerTrace dir none walk fatal).foldl applyPAct initStatus)).1
              resultLines := (runTasks query true false regexSearch (pushedTasks none walk)
                ((producerTrace dir none walk fatal).foldl applyPAct initStatus)).2.1
              status := (runTasks query true false regexSearch (pushedTasks none walk)
                ((producerTrace dir none walk fatal).foldl applyPAct initStatus)).2.2 }
          from rfl]
      refine ⟨rfl, hrun.2.1, hrun.1, ?_, ?_⟩
      · rw [hrun.2.2.1, hcnt.1]
        rfl
      · rw [hrun.2.2.2, hcnt.2]
        rfl
  | some p =>
      have hcw := compile_wildcard p
      have hft : filterToks (some p) = some (p.map tokOfWildcardChar) := by
        unfold filterToks
        exact hcw
      have hrun := runTasks_invalid_regex query regexSearch
        (pushedTasks (some (p.map tokOfWildcardChar)) walk)
        ((producerTrace dir (some (p.map tokOfWildcardChar)) walk fatal).foldl
          applyPAct initStatus)
      have hcnt := foldl_applyPAct_counters
        (producerTrace dir (some (p.map tokOfWildcardChar)) walk fatal) initStatus
      have hsd : searchInDirectory query dir true false regexSearch (some p) walk fatal true
          = { aborted := false
              openedPaths := (runTasks query true false regexSearch
                (pushedTasks (some (p.map tokOfWildcardChar)) walk)
                ((producerTrace dir (some (p.map tokOfWildcardChar)) walk fatal).foldl
                  applyPAct initStatus)).1
              resultLines := (runTasks query true false regexSearch
                (pushedTasks (some (p.map tokOfWildcardChar)) walk)
                ((producerTrace dir (some (p.map tokOfWildcardChar)) walk fatal).foldl
                  applyPAct initStatus)).2.1
              status := (runTasks query true false regexSearch
                (pushedTasks (some (p.map tokOfWildcardChar)) walk)
                ((producerTrace dir (some (p.map tokOfWildcardChar)) walk fatal).foldl
                  applyPAct initStatus)).2.2 } := by
        rw [show searchInDirectory query dir true false regexSearch (some p) walk fatal true
            = (match compileAnchored (wildcardToRegex p) with
               | none =>
                 { aborted := true, openedPaths := [], resultLines := []
                   status := initStatus }
               | some tks =>
                 let st0 := (producerTrace dir (some tks) walk fatal).foldl
                   applyPAct initStatus
                 let r := runTasks query true false regexSearch
                   (pushedTasks (some tks) walk) st0
                 { aborted := false, openedPaths := r.1, resultLines := r.2.1
                   status := r.2.2 }) from rfl]
        rw [hcw]
      rw [hsd, hft]
      refine ⟨rfl, hrun.2.1, hrun.1, ?_, ?_⟩
      · rw [hrun.2.2.1, hcnt.1]
        rfl
      · rw [hrun.2.2.2, hcnt.2]
        rfl

end DirScan
